import Mathlib

/-!
# Parcel repository (`parcel.go`)

A shallow embedding of the parcel repository of `parcel.go`.  Every method of
`ParcelStore` issues exactly one SQL statement against the table `parcel`; the
statements are embedded as operations on the list of rows of that table, and the
handle `*sql.DB` becomes an explicit database value that is passed in and handed
back by each mutating method.

Whether the store runs a statement or fails on it (a closed handle, an I/O error, a
query that breaks off while its rows are read) does not depend on the rows of the table:
it is an input of each call, `fault`, which is `none` when left out.  So `s.Get n` is the
call on a store that runs the `SELECT`, and `s.Get n (some f)` the call during which the
store fails with `f`.

Go's `int` and `int64` are 64-bit; numbers are modelled as `Int`, and the one place
where the bound matters (the key generator of the table) tests it explicitly.
-/

namespace Sprint8

/-! ## Data model -/

/-- Modelled from the spec: the record type `Parcel`, which `parcel.go` uses but does not
declare (spec section 3: `number`, `client`, `status`, `address`, `createdAt`).  The field
names are the ones `parcel.go` reads and writes. -/
structure Parcel where
  Number : Int
  Client : Int
  Status : String
  Address : String
  CreatedAt : String
deriving DecidableEq, Repr

/-- Modelled from the spec: the constant `ParcelStatusRegistered`, used by `parcel_test.go`
but declared outside the two source files; the spec names its value `"registered"`. -/
def ParcelStatusRegistered : String := "registered"

/-- Modelled from the spec: the constant `ParcelStatusDelivered`, used by `parcel_test.go`
but declared outside the two source files; the spec names its value `"delivered"`. -/
def ParcelStatusDelivered : String := "delivered"

/-- The errors a method can return: `sql.ErrNoRows`, the sentinel that `Row.Scan` returns
when the query selected no row, and any other failure reported by the store. -/
inductive DBError where
  | ErrNoRows
  | Failure (msg : String)
deriving DecidableEq, Repr

/-- A failure of the store during one statement: `stmt msg`, the statement is not run at
all (closed handle, lost connection, ...); `iter k msg`, a query is started and breaks off
after it has delivered `k` rows, which `rows.Err()` reports. -/
inductive Fault where
  | stmt (msg : String)
  | iter (k : Nat) (msg : String)
deriving DecidableEq, Repr

/-- The message of a failure. -/
def Fault.msg : Fault → String
  | .stmt m => m
  | .iter _ m => m

/-! ## The relational store

Modelled from the spec (section 6): one table

    TABLE parcel (number INTEGER PRIMARY KEY AUTOINCREMENT, client INTEGER NOT NULL,
                  status TEXT NOT NULL, address TEXT NOT NULL, created_at TEXT NOT NULL)

held as the list of its rows in scan order, together with the counter of the key
generator (the largest key handed out so far). -/

/-- Modelled from the spec: the database behind the handle `*sql.DB`, whose schema is
declared outside the two source files (spec section 6): the rows of table `parcel` in scan
order, and the counter of the key generator of its `AUTOINCREMENT` primary key. -/
structure DB where
  parcel : List Parcel
  seq : Int
deriving DecidableEq, Repr

/-- The database with an empty table `parcel` and an unused key generator. -/
def DB.empty : DB := { parcel := [], seq := 0 }

/-- The largest key a row can have (the largest `int64`). -/
def maxRowid : Int := 9223372036854775807

/-- The largest key present in the table, if the table has a row. -/
def lastRowid : List Parcel → Option Int
  | [] => none
  | r :: rs =>
    match lastRowid rs with
    | none => some r.Number
    | some m => some (max r.Number m)

/-- Modelled from the spec: the key generator of the `AUTOINCREMENT` primary key that the
schema of spec section 6 gives column `number`: one more than the largest key of
the table (1 for an empty table), raised to one more than the counter when that is larger;
no key is produced once the largest key or the counter has reached `maxRowid`. -/
def newRowid (db : DB) : Option Int :=
  if maxRowid ≤ db.seq then none
  else
    match lastRowid db.parcel with
    | none => some (max 1 (db.seq + 1))
    | some m => if maxRowid ≤ m then none else some (max (m + 1) (db.seq + 1))

/-- What `db.Exec` hands back (`sql.Result`), together with the database after the
statement: the key of the row inserted last on the handle (the counter of the key
generator, which an `UPDATE` or `DELETE` leaves alone) and the number of rows the statement
touched.  `parcel.go` reads `lastInsertId` after the `INSERT` only and discards the result
of the other statements. -/
structure ExecResult where
  db : DB
  lastInsertId : Int
  rowsAffected : Int
deriving DecidableEq, Repr

/-- `res.LastInsertId()`. -/
def ExecResult.LastInsertId (res : ExecResult) : Except DBError Int :=
  .ok res.lastInsertId

/-- The statement `INSERT INTO parcel (client, status, address, created_at) VALUES (...)`:
the new row takes its key from the key generator and goes to the end of the table; the
statement fails when the store fails and when no key is left. -/
def DB.execInsert (db : DB) (fault : Option Fault) (client : Int)
    (status address created_at : String) : Except DBError ExecResult :=
  match fault with
  | some f => .error (.Failure f.msg)
  | none =>
    match newRowid db with
    | none => .error (.Failure "database or disk is full")
    | some v =>
      .ok { db := { parcel := db.parcel ++ [{ Number := v, Client := client, Status := status,
                                              Address := address, CreatedAt := created_at }],
                    seq := v },
            lastInsertId := v,
            rowsAffected := 1 }

/-- The statement `UPDATE parcel SET ... WHERE ...`: every row that satisfies the `WHERE`
clause is replaced by its updated version, the others stay; the statement fails when the
store fails, and not when it selects no row. -/
def DB.execUpdate (db : DB) (fault : Option Fault) (wh : Parcel → Bool)
    (set : Parcel → Parcel) : Except DBError ExecResult :=
  match fault with
  | some f => .error (.Failure f.msg)
  | none =>
    .ok { db := { db with parcel := db.parcel.map (fun r => if wh r then set r else r) },
          lastInsertId := db.seq,
          rowsAffected := (db.parcel.filter wh).length }

/-- The statement `DELETE FROM parcel WHERE ...`: every row that satisfies the `WHERE`
clause is removed; the statement fails when the store fails, and not when it selects no
row. -/
def DB.execDelete (db : DB) (fault : Option Fault) (wh : Parcel → Bool) :
    Except DBError ExecResult :=
  match fault with
  | some f => .error (.Failure f.msg)
  | none =>
    .ok { db := { db with parcel := db.parcel.filter (fun r => !wh r) },
          lastInsertId := db.seq,
          rowsAffected := (db.parcel.filter wh).length }

/-- What `db.Query` hands back (`*sql.Rows`): the rows that `rows.Next()` delivers, in
order, and what `rows.Err()` reports once `rows.Next()` has returned false. -/
structure Rows where
  rows : List Parcel
  err : Option DBError
deriving DecidableEq, Repr

/-- The statement `SELECT number, client, status, address, created_at FROM parcel WHERE ...`:
the rows that satisfy the `WHERE` clause, in scan order.  The query fails when the store
does not run it, and delivers only the first `k` selected rows, with an error to report,
when it breaks off after `k` rows. -/
def DB.query (db : DB) (fault : Option Fault) (wh : Parcel → Bool) : Except DBError Rows :=
  match fault with
  | some (.stmt msg) => .error (.Failure msg)
  | some (.iter k msg) =>
    .ok { rows := (db.parcel.filter wh).take k, err := some (.Failure msg) }
  | none => .ok { rows := db.parcel.filter wh, err := none }

/-- `db.QueryRow(...)` followed by `row.Scan(...)`: the error of the query if it failed;
otherwise the first delivered row; and when no row is delivered, what `rows.Err()` reports,
or `sql.ErrNoRows` if it reports nothing. -/
def DB.queryRowScan (db : DB) (fault : Option Fault) (wh : Parcel → Bool) :
    Except DBError Parcel :=
  match db.query fault wh with
  | .error err => .error err
  | .ok rows =>
    match rows.rows with
    | r :: _ => .ok r
    | [] =>
      match rows.err with
      | some err => .error err
      | none => .error .ErrNoRows

/-! ## The repository (`parcel.go`) -/

/-- `type ParcelStore struct { db *sql.DB }`. -/
structure ParcelStore where
  db : DB
deriving DecidableEq, Repr

/-- `func NewParcelStore(db *sql.DB) ParcelStore`. -/
def NewParcelStore (db : DB) : ParcelStore := { db := db }

namespace ParcelStore

/-- `func (s ParcelStore) Add(p Parcel) (int, error)`: inserts the four caller-owned
fields of `p` and returns the key of the new row, or the error of the store. -/
def Add (s : ParcelStore) (p : Parcel) (fault : Option Fault := none) :
    Except DBError (Int × ParcelStore) :=
  match s.db.execInsert fault p.Client p.Status p.Address p.CreatedAt with
  | .error err => .error err
  | .ok res =>
    match res.LastInsertId with
    | .error err => .error err
    | .ok id => .ok (id, { db := res.db })

/-- `func (s ParcelStore) Get(number int) (Parcel, error)`:
`SELECT ... FROM parcel WHERE number = :number`, scanned into a `Parcel`; whatever error
`row.Scan` reports is returned as it is. -/
def Get (s : ParcelStore) (number : Int) (fault : Option Fault := none) :
    Except DBError Parcel :=
  match s.db.queryRowScan fault (fun r => r.Number == number) with
  | .error err => .error err
  | .ok p => .ok p

/-- The loop `for rows.Next() { ...; res = append(res, p) }` of `GetByClient`. -/
def scanRows : List Parcel → List Parcel → List Parcel
  | [], res => res
  | p :: rows, res => scanRows rows (res ++ [p])

/-- `func (s ParcelStore) GetByClient(client int) ([]Parcel, error)`:
`SELECT ... FROM parcel WHERE client = :client`, every delivered row appended to the
result; the error of the query, or the one `rows.Err()` reports after the loop, is returned
in place of the result.  (`rows.Scan` reads five columns of the declared types into fields
of the same types; its error exit returns in the same way.) -/
def GetByClient (s : ParcelStore) (client : Int) (fault : Option Fault := none) :
    Except DBError (List Parcel) :=
  match s.db.query fault (fun r => r.Client == client) with
  | .error err => .error err
  | .ok rows =>
    match rows.err with
    | some err => .error err
    | none => .ok (scanRows rows.rows [])

/-- `func (s ParcelStore) SetStatus(number int, status string) error`:
`UPDATE parcel SET status = :status WHERE number = :number`. -/
def SetStatus (s : ParcelStore) (number : Int) (status : String)
    (fault : Option Fault := none) : Except DBError ParcelStore :=
  match s.db.execUpdate fault (fun r => r.Number == number)
      (fun r => { r with Status := status }) with
  | .error err => .error err
  | .ok res => .ok { db := res.db }

/-- `func (s ParcelStore) SetAddress(number int, address string) error`:
`UPDATE parcel SET address = :address WHERE number = :number AND status = 'registered'`. -/
def SetAddress (s : ParcelStore) (number : Int) (address : String)
    (fault : Option Fault := none) : Except DBError ParcelStore :=
  match s.db.execUpdate fault (fun r => r.Number == number && r.Status == "registered")
      (fun r => { r with Address := address }) with
  | .error err => .error err
  | .ok res => .ok { db := res.db }

/-- `func (s ParcelStore) Delete(number int) error`:
`DELETE FROM parcel WHERE number = :number AND status = 'registered'`. -/
def Delete (s : ParcelStore) (number : Int) (fault : Option Fault := none) :
    Except DBError ParcelStore :=
  match s.db.execDelete fault (fun r => r.Number == number && r.Status == "registered") with
  | .error err => .error err
  | .ok res => .ok { db := res.db }

end ParcelStore

/-- The stores that the repository's operations produce from the empty table. -/
inductive Reachable : ParcelStore → Prop where
  | empty : Reachable (NewParcelStore DB.empty)
  | add {s s1 : ParcelStore} {p : Parcel} {id : Int} :
      Reachable s → s.Add p = .ok (id, s1) → Reachable s1
  | setStatus {s s1 : ParcelStore} {n : Int} {st : String} :
      Reachable s → s.SetStatus n st = .ok s1 → Reachable s1
  | setAddress {s s1 : ParcelStore} {n : Int} {a : String} :
      Reachable s → s.SetAddress n a = .ok s1 → Reachable s1
  | delete {s s1 : ParcelStore} {n : Int} :
      Reachable s → s.Delete n = .ok s1 → Reachable s1

/-- `Add` applied to each parcel of a list in turn (the loop of `TestGetByClient`),
returning the identifiers in order and the final store. -/
def addAll : ParcelStore → List Parcel → Except DBError (List Int × ParcelStore)
  | s, [] => .ok ([], s)
  | s, p :: ps =>
    match s.Add p with
    | .error err => .error err
    | .ok (id, s1) =>
      match addAll s1 ps with
      | .error err => .error err
      | .ok (ids, s2) => .ok (id :: ids, s2)

/-! ## Fixtures of `parcel_test.go` -/

/-- `func getTestParcel() Parcel` of `parcel_test.go`; the reading of the clock,
`time.Now().UTC().Format(time.RFC3339)`, is passed in. -/
def getTestParcel (now : String) : Parcel :=
  { Number := 0, Client := 1000, Status := ParcelStatusRegistered, Address := "test",
    CreatedAt := now }

/-- A test parcel created at a fixed time. -/
def testParcel : Parcel := getTestParcel "2024-05-01T10:00:00Z"

/-- A parcel of another client, already on its way. -/
def otherParcel : Parcel :=
  { Number := 0, Client := 7, Status := "sent", Address := "elsewhere",
    CreatedAt := "2024-05-02T11:30:00Z" }

/-- The store over the empty table. -/
def store0 : ParcelStore := NewParcelStore DB.empty

/-- The store after `Add testParcel` on the empty table. -/
def store1 : ParcelStore :=
  { db := { parcel := [{ testParcel with Number := 1 }], seq := 1 } }

/-- The store after `Add testParcel` and `SetStatus 1 "delivered"`. -/
def store1Delivered : ParcelStore :=
  { db := { parcel := [{ testParcel with Number := 1, Status := ParcelStatusDelivered }],
            seq := 1 } }

/-- The store after adding `testParcel`, `otherParcel` and `testParcel` again. -/
def store3 : ParcelStore :=
  { db := { parcel := [{ testParcel with Number := 1 }, { otherParcel with Number := 2 },
                       { testParcel with Number := 3 }],
            seq := 3 } }

/-- The primary-key constraint of table `parcel`: no two rows share a number. -/
def UniqueKeys (s : ParcelStore) : Prop :=
  (s.db.parcel.map (fun r => r.Number)).Nodup

/-! ## The store: key generator, point lookup -/

theorem lastRowid_ge (rows : List Parcel) (r : Parcel) (hr : r ∈ rows) :
    ∃ m, lastRowid rows = some m ∧ r.Number ≤ m := by
  induction rows with
  | nil => simp at hr
  | cons x xs ih =>
    rcases List.mem_cons.mp hr with rfl | hmem
    · cases hx : lastRowid xs with
      | none => exact ⟨r.Number, by simp [lastRowid, hx], le_refl _⟩
      | some m => exact ⟨max r.Number m, by simp [lastRowid, hx], le_max_left _ _⟩
    · obtain ⟨m, hm, hle⟩ := ih hmem
      exact ⟨max x.Number m, by simp [lastRowid, hm], le_trans hle (le_max_right _ _)⟩

theorem newRowid_gt (db : DB) (v : Int) (h : newRowid db = some v) :
    (∀ r ∈ db.parcel, r.Number < v) ∧ db.seq < v := by
  unfold newRowid at h
  split at h
  · simp at h
  · cases hl : lastRowid db.parcel with
    | none =>
      rw [hl] at h
      simp only [Option.some.injEq] at h
      refine ⟨fun r hr => ?_, by omega⟩
      obtain ⟨m, hm, _⟩ := lastRowid_ge _ r hr
      rw [hl] at hm
      simp at hm
    | some m =>
      rw [hl] at h
      simp only at h
      split at h
      · simp at h
      · simp only [Option.some.injEq] at h
        refine ⟨fun r hr => ?_, by omega⟩
        obtain ⟨m1, hm1, hle⟩ := lastRowid_ge _ r hr
        rw [hl] at hm1
        simp only [Option.some.injEq] at hm1
        omega

theorem newRowid_pos (db : DB) (v : Int) (hseq : 0 ≤ db.seq) (h : newRowid db = some v) :
    0 < v := by
  have := (newRowid_gt db v h).2
  omega

theorem queryRowScan_eq_find (db : DB) (wh : Parcel → Bool) :
    db.queryRowScan none wh =
      match db.parcel.find? wh with
      | some r => .ok r
      | none => .error .ErrNoRows := by
  unfold DB.queryRowScan DB.query
  simp only
  induction db.parcel with
  | nil => rfl
  | cons x xs ih =>
    by_cases hx : wh x = true
    · simp [List.filter_cons, List.find?_cons, hx]
    · simp only [Bool.not_eq_true] at hx
      simpa [List.filter_cons, List.find?_cons, hx] using ih

namespace ParcelStore

theorem Get_eq_find (s : ParcelStore) (n : Int) :
    s.Get n =
      match s.db.parcel.find? (fun r => r.Number == n) with
      | some r => .ok r
      | none => .error .ErrNoRows := by
  unfold Get
  rw [queryRowScan_eq_find]
  cases s.db.parcel.find? (fun r => r.Number == n) <;> rfl

theorem Get_ok_iff (s : ParcelStore) (n : Int) (q : Parcel) :
    s.Get n = .ok q ↔ s.db.parcel.find? (fun r => r.Number == n) = some q := by
  rw [Get_eq_find]
  cases s.db.parcel.find? (fun r => r.Number == n) <;> simp

theorem Get_error_iff (s : ParcelStore) (n : Int) :
    s.Get n = .error .ErrNoRows ↔ ∀ r ∈ s.db.parcel, r.Number ≠ n := by
  rw [Get_eq_find]
  cases h : s.db.parcel.find? (fun r => r.Number == n) with
  | none =>
    simp only [true_iff]
    intro r hr
    have := List.find?_eq_none.mp h r hr
    simpa using this
  | some q =>
    simp only [reduceCtorEq, false_iff]
    intro hall
    have h1 := List.find?_some h
    have h2 := List.mem_of_find?_eq_some h
    exact hall q h2 (by simpa using h1)

theorem Add_ok_iff (s s1 : ParcelStore) (p : Parcel) (id : Int) :
    s.Add p = .ok (id, s1) ↔
      newRowid s.db = some id ∧
      s1 = { db := { parcel := s.db.parcel ++ [{ p with Number := id }], seq := id } } := by
  unfold Add DB.execInsert ExecResult.LastInsertId
  cases h : newRowid s.db with
  | none => simp
  | some v =>
    simp only [Except.ok.injEq, Prod.mk.injEq, Option.some.injEq]
    constructor
    · rintro ⟨rfl, rfl⟩
      exact ⟨rfl, rfl⟩
    · rintro ⟨rfl, rfl⟩
      exact ⟨rfl, rfl⟩

theorem Get_Add (s s1 : ParcelStore) (p : Parcel) (id : Int) (h : s.Add p = .ok (id, s1))
    (m : Int) :
    s1.Get m = if m = id then .ok { p with Number := id } else s.Get m := by
  obtain ⟨hid, rfl⟩ := (Add_ok_iff s s1 p id).mp h
  have hfresh := (newRowid_gt s.db id hid).1
  rw [Get_eq_find, Get_eq_find]
  simp only [List.find?_append]
  by_cases hm : m = id
  · subst hm
    have hnone : s.db.parcel.find? (fun r => r.Number == m) = none := by
      rw [List.find?_eq_none]
      intro r hr
      have := hfresh r hr
      simp only [beq_iff_eq]
      omega
    simp [hnone]
  · have hne : ¬ id = m := fun e => hm e.symm
    cases hf : s.db.parcel.find? (fun r => r.Number == m) <;> simp [hm, hne]

theorem SetStatus_eq (s : ParcelStore) (n : Int) (st : String) :
    s.SetStatus n st = .ok ⟨⟨List.map
      (fun r => if r.Number == n then { r with Status := st } else r) s.db.parcel, s.db.seq⟩⟩ :=
  rfl

theorem SetAddress_eq (s : ParcelStore) (n : Int) (a : String) :
    s.SetAddress n a = .ok ⟨⟨List.map
      (fun r => if r.Number == n && r.Status == "registered" then { r with Address := a } else r)
      s.db.parcel, s.db.seq⟩⟩ :=
  rfl

theorem Delete_eq (s : ParcelStore) (n : Int) :
    s.Delete n = .ok ⟨⟨List.filter
      (fun r => !(r.Number == n && r.Status == "registered")) s.db.parcel, s.db.seq⟩⟩ :=
  rfl

end ParcelStore

/-! ## Calls during which the store fails -/

theorem ParcelStore.Add_fault (s : ParcelStore) (p : Parcel) (f : Fault) :
    s.Add p (some f) = .error (.Failure f.msg) :=
  rfl

theorem ParcelStore.SetStatus_fault (s : ParcelStore) (n : Int) (st : String) (f : Fault) :
    s.SetStatus n st (some f) = .error (.Failure f.msg) :=
  rfl

theorem ParcelStore.SetAddress_fault (s : ParcelStore) (n : Int) (a : String) (f : Fault) :
    s.SetAddress n a (some f) = .error (.Failure f.msg) :=
  rfl

theorem ParcelStore.Delete_fault (s : ParcelStore) (n : Int) (f : Fault) :
    s.Delete n (some f) = .error (.Failure f.msg) :=
  rfl

theorem ParcelStore.GetByClient_fault (s : ParcelStore) (c : Int) (f : Fault) :
    s.GetByClient c (some f) = .error (.Failure f.msg) := by
  cases f <;> rfl

theorem find_update (l : List Parcel) (wh : Parcel → Bool) (set : Parcel → Parcel)
    (hnum : ∀ r, (set r).Number = r.Number) (m : Int) :
    (l.map (fun r => if wh r then set r else r)).find? (fun r => r.Number == m) =
      (l.find? (fun r => r.Number == m)).map (fun r => if wh r then set r else r) := by
  have hcomp : ((fun r : Parcel => r.Number == m) ∘ fun r => if wh r then set r else r) =
      fun r => r.Number == m := by
    funext r
    by_cases h : wh r = true <;> simp [h, hnum]
  rw [List.find?_map, hcomp]

theorem filter_update_others (l : List Parcel) (wh : Parcel → Bool) (set : Parcel → Parcel)
    (n : Int) (hnum : ∀ r, (set r).Number = r.Number) (hwh : ∀ r, wh r = true → r.Number = n) :
    (l.map (fun r => if wh r then set r else r)).filter (fun x => x.Number != n) =
      l.filter (fun x => x.Number != n) := by
  induction l with
  | nil => rfl
  | cons x xs ih =>
    by_cases hx : wh x = true
    · have hxn : x.Number = n := hwh x hx
      simp only [List.map_cons, hx, if_true, List.filter_cons, hnum, hxn, bne_self_eq_false,
        Bool.false_eq_true, if_false]
      exact ih
    · simp only [List.map_cons, hx, if_false, List.filter_cons, Bool.false_eq_true]
      rw [ih]

theorem map_update_numbers (l : List Parcel) (wh : Parcel → Bool) (set : Parcel → Parcel)
    (hnum : ∀ r, (set r).Number = r.Number) :
    (l.map (fun r => if wh r then set r else r)).map (fun r => r.Number) =
      l.map (fun r => r.Number) := by
  rw [List.map_map]
  apply List.map_congr_left
  intro r _
  by_cases h : wh r = true <;> simp [h, hnum]

theorem Add_uniqueKeys (s s1 : ParcelStore) (p : Parcel) (id : Int)
    (h : s.Add p = .ok (id, s1)) (hu : UniqueKeys s) : UniqueKeys s1 := by
  obtain ⟨hid, rfl⟩ := (ParcelStore.Add_ok_iff s s1 p id).mp h
  have hfresh := (newRowid_gt s.db id hid).1
  unfold UniqueKeys
  simp only [List.map_append, List.map_cons, List.map_nil]
  refine List.Nodup.append hu (List.nodup_singleton _) ?_
  rw [List.disjoint_singleton]
  intro hmem
  obtain ⟨r, hr, hrn⟩ := List.mem_map.mp hmem
  have := hfresh r hr
  omega

theorem Reachable.seq_nonneg {s : ParcelStore} (h : Reachable s) : 0 ≤ s.db.seq := by
  induction h with
  | empty => decide
  | add _ hadd ih =>
    obtain ⟨hid, rfl⟩ := (ParcelStore.Add_ok_iff _ _ _ _).mp hadd
    have := (newRowid_gt _ _ hid).2
    simp only
    omega
  | setStatus _ hset ih =>
    rw [ParcelStore.SetStatus_eq] at hset
    cases hset
    exact ih
  | setAddress _ hset ih =>
    rw [ParcelStore.SetAddress_eq] at hset
    cases hset
    exact ih
  | delete _ hdel ih =>
    rw [ParcelStore.Delete_eq] at hdel
    cases hdel
    exact ih

theorem Reachable.uniqueKeys {s : ParcelStore} (h : Reachable s) : UniqueKeys s := by
  induction h with
  | empty => exact List.nodup_nil
  | add _ hadd ih => exact Add_uniqueKeys _ _ _ _ hadd ih
  | @setStatus s0 _ n st _ hset ih =>
    rw [ParcelStore.SetStatus_eq] at hset
    cases hset
    unfold UniqueKeys
    simp only
    rw [map_update_numbers s0.db.parcel (fun r => r.Number == n)
      (fun r => { r with Status := st }) (fun _ => rfl)]
    exact ih
  | @setAddress s0 _ n a _ hset ih =>
    rw [ParcelStore.SetAddress_eq] at hset
    cases hset
    unfold UniqueKeys
    simp only
    rw [map_update_numbers s0.db.parcel (fun r => r.Number == n && r.Status == "registered")
      (fun r => { r with Address := a }) (fun _ => rfl)]
    exact ih
  | delete _ hdel ih =>
    rw [ParcelStore.Delete_eq] at hdel
    cases hdel
    exact List.Nodup.sublist ((List.filter_sublist _).map _) ih

/-! ## Scans and repeated insertion -/

theorem ParcelStore.scanRows_eq (rows res : List Parcel) :
    ParcelStore.scanRows rows res = res ++ rows := by
  induction rows generalizing res with
  | nil => simp [ParcelStore.scanRows]
  | cons x xs ih => simp [ParcelStore.scanRows, ih]

theorem ParcelStore.GetByClient_eq (s : ParcelStore) (c : Int) :
    s.GetByClient c = .ok (s.db.parcel.filter (fun r => r.Client == c)) := by
  unfold ParcelStore.GetByClient DB.query
  simp [ParcelStore.scanRows_eq]

theorem addAll_spec (ps : List Parcel) :
    ∀ (s s1 : ParcelStore) (ids : List Int), addAll s ps = .ok (ids, s1) →
      ids.length = ps.length ∧
      s1.db.parcel = s.db.parcel ++ (ids.zip ps).map (fun ip => { ip.2 with Number := ip.1 }) ∧
      ids.Pairwise (fun a b => a < b) ∧
      (∀ r ∈ s.db.parcel, ∀ id ∈ ids, r.Number < id) := by
  induction ps with
  | nil =>
    intro s s1 ids h
    simp only [addAll, Except.ok.injEq, Prod.mk.injEq] at h
    obtain ⟨rfl, rfl⟩ := h
    simp
  | cons p ps ih =>
    intro s s1 ids h
    unfold addAll at h
    cases hadd : s.Add p with
    | error e => simp [hadd] at h
    | ok r =>
      obtain ⟨id, s0⟩ := r
      simp only [hadd] at h
      cases hrest : addAll s0 ps with
      | error e => simp [hrest] at h
      | ok r1 =>
        obtain ⟨ids1, s2⟩ := r1
        simp only [hrest, Except.ok.injEq, Prod.mk.injEq] at h
        obtain ⟨rfl, rfl⟩ := h
        obtain ⟨hlen, hrows, hpw, hlt⟩ := ih s0 s2 ids1 hrest
        obtain ⟨hid, hs0⟩ := (ParcelStore.Add_ok_iff s s0 p id).mp hadd
        have hfresh := (newRowid_gt s.db id hid).1
        have hs0rows : s0.db.parcel = s.db.parcel ++ [{ p with Number := id }] := by rw [hs0]
        refine ⟨by simp [hlen], ?_, ?_, ?_⟩
        · rw [hrows, hs0rows]
          simp
        · rw [List.pairwise_cons]
          refine ⟨fun b hb => ?_, hpw⟩
          have := hlt { p with Number := id } (by rw [hs0rows]; simp) b hb
          simpa using this
        · intro r hr b hb
          rcases List.mem_cons.mp hb with rfl | hb1
          · exact hfresh r hr
          · exact hlt r (by rw [hs0rows]; exact List.mem_append_left _ hr) b hb1

theorem zip_filter_snd_length (c : Int) (ps : List Parcel) :
    ∀ ids : List Int, ids.length = ps.length →
      ((ids.zip ps).filter (fun ip => ip.2.Client == c)).length =
        (ps.filter (fun p => p.Client == c)).length := by
  induction ps with
  | nil => intro ids _; simp
  | cons p ps ih =>
    intro ids hlen
    cases ids with
    | nil => simp at hlen
    | cons i is =>
      have hl : is.length = ps.length := by simpa using hlen
      by_cases hp : p.Client = c
      · simp [List.filter_cons, hp, ih is hl]
      · simp [List.filter_cons, hp, ih is hl]

theorem find_of_unique (l : List Parcel) (q : Parcel) (hq : q ∈ l)
    (huniq : ∀ x ∈ l, x.Number = q.Number → x = q) :
    l.find? (fun r => r.Number == q.Number) = some q := by
  induction l with
  | nil => simp at hq
  | cons x xs ih =>
    by_cases hx : x.Number = q.Number
    · have := huniq x (List.mem_cons_self _ _) hx
      simp [List.find?_cons, this]
    · have hqx : q ∈ xs := by
        rcases List.mem_cons.mp hq with rfl | h
        · exact absurd rfl hx
        · exact h
      have hb : (x.Number == q.Number) = false := by simpa using hx
      rw [List.find?_cons, hb]
      exact ih hqx (fun y hy => huniq y (List.mem_cons_of_mem _ hy))

/-! ## Guards that do not hold, and reads after a status change -/

theorem ParcelStore.Delete_of_guard (s : ParcelStore) (n : Int)
    (hguard : ∀ r ∈ s.db.parcel, r.Number = n → r.Status ≠ "registered") :
    s.Delete n = .ok s := by
  have hsame : s.db.parcel.filter (fun r => !(r.Number == n && r.Status == "registered"))
      = s.db.parcel := by
    rw [List.filter_eq_self]
    intro r hr
    by_cases hn : r.Number = n
    · simp [hn, hguard r hr hn]
    · simp [hn]
  rw [ParcelStore.Delete_eq, hsame]

theorem ParcelStore.SetAddress_of_guard (s : ParcelStore) (n : Int) (a : String)
    (hguard : ∀ r ∈ s.db.parcel, r.Number = n → r.Status ≠ "registered") :
    s.SetAddress n a = .ok s := by
  have hsame : s.db.parcel.map (fun r =>
      if r.Number == n && r.Status == "registered" then { r with Address := a } else r)
      = s.db.parcel := by
    conv_rhs => rw [← List.map_id s.db.parcel]
    apply List.map_congr_left
    intro r hr
    by_cases hn : r.Number = n
    · simp [hn, hguard r hr hn]
    · simp [hn]
  rw [ParcelStore.SetAddress_eq, hsame]

theorem ParcelStore.Get_SetStatus (s s1 : ParcelStore) (n : Int) (st : String)
    (h : s.SetStatus n st = .ok s1) (m : Int) :
    s1.Get m =
      match s.Get m with
      | .ok r => .ok (if r.Number == n then { r with Status := st } else r)
      | .error e => .error e := by
  rw [ParcelStore.SetStatus_eq] at h
  cases h
  rw [ParcelStore.Get_eq_find, ParcelStore.Get_eq_find]
  simp only
  rw [find_update s.db.parcel (fun r => r.Number == n) (fun r => { r with Status := st })
    (fun _ => rfl)]
  cases s.db.parcel.find? (fun r => r.Number == m) <;> rfl

theorem ParcelStore.guard_after_SetStatus (s s1 : ParcelStore) (n : Int) (st : String)
    (h : s.SetStatus n st = .ok s1) (hst : st ≠ "registered") :
    ∀ r ∈ s1.db.parcel, r.Number = n → r.Status ≠ "registered" := by
  rw [ParcelStore.SetStatus_eq] at h
  cases h
  intro r hr hrn
  obtain ⟨x, _, rfl⟩ := List.mem_map.mp hr
  by_cases hx : x.Number = n
  · simpa [hx] using hst
  · simp [hx] at hrn

/-! ## The scenarios of the spec's testable properties, for every store and parcel -/

/-- Guarded delete after delivery: a parcel is added, moved to `"delivered"`, and then
`Delete` reports success, leaves the store as it is, and `Get` still returns the row. -/
theorem delete_after_delivered (s s1 s2 : ParcelStore) (p : Parcel) (id : Int)
    (hadd : s.Add p = .ok (id, s1)) (hset : s1.SetStatus id "delivered" = .ok s2) :
    s2.Delete id = .ok s2 ∧
      s2.Get id = .ok { p with Number := id, Status := "delivered" } := by
  refine ⟨ParcelStore.Delete_of_guard s2 id
    (ParcelStore.guard_after_SetStatus s1 s2 id _ hset (by decide)), ?_⟩
  rw [ParcelStore.Get_SetStatus s1 s2 id _ hset id, ParcelStore.Get_Add s s1 p id hadd id]
  simp

/-- Guarded address update after delivery: a parcel is added, moved to `"delivered"`, and
then `SetAddress` reports success, leaves the store as it is, and `Get` returns the row
with the address it was added with. -/
theorem setAddress_after_delivered (s s1 s2 : ParcelStore) (p : Parcel) (id : Int) (a : String)
    (hadd : s.Add p = .ok (id, s1)) (hset : s1.SetStatus id "delivered" = .ok s2) :
    s2.SetAddress id a = .ok s2 ∧
      s2.Get id = .ok { p with Number := id, Status := "delivered" } := by
  refine ⟨ParcelStore.SetAddress_of_guard s2 id a
    (ParcelStore.guard_after_SetStatus s1 s2 id _ hset (by decide)), ?_⟩
  rw [ParcelStore.Get_SetStatus s1 s2 id _ hset id, ParcelStore.Get_Add s s1 p id hadd id]
  simp

/-- Status there and back: a parcel is added, moved to `"delivered"` and back to
`"registered"`; each intermediate read returns the row with the status just written. -/
theorem setStatus_there_and_back (s s1 s2 s3 : ParcelStore) (p : Parcel) (id : Int)
    (hadd : s.Add p = .ok (id, s1)) (hset : s1.SetStatus id "delivered" = .ok s2)
    (hback : s2.SetStatus id "registered" = .ok s3) :
    s2.Get id = .ok { p with Number := id, Status := "delivered" } ∧
      s3.Get id = .ok { p with Number := id, Status := "registered" } := by
  have h2 : s2.Get id = .ok { p with Number := id, Status := "delivered" } := by
    rw [ParcelStore.Get_SetStatus s1 s2 id _ hset id, ParcelStore.Get_Add s s1 p id hadd id]
    simp
  refine ⟨h2, ?_⟩
  rw [ParcelStore.Get_SetStatus s2 s3 id _ hback id, h2]
  simp

/-! ## The claims -/

/-- Claim C1 (round trip).  For every store and every parcel `p`, if `Add p` succeeds with
identifier `id`, then `Get id` on the resulting store succeeds and returns a parcel whose
client, status and address (and creation time) are those of `p` and whose number is `id`. -/
theorem add_get_round_trip (s s1 : ParcelStore) (p : Parcel) (id : Int)
    (hadd : s.Add p = .ok (id, s1)) :
    ∃ q, s1.Get id = .ok q ∧ q.Client = p.Client ∧ q.Status = p.Status ∧
      q.Address = p.Address ∧ q.CreatedAt = p.CreatedAt ∧ q.Number = id := by
  refine ⟨{ p with Number := id }, ?_, rfl, rfl, rfl, rfl, rfl⟩
  rw [ParcelStore.Get_Add s s1 p id hadd id]
  simp

/-- Witness for C1: the test parcel added to the empty table gets number 1 and is read
back. -/
theorem add_get_round_trip_witness :
    store0.Add testParcel = .ok (1, store1) ∧
    ∃ q, store1.Get 1 = .ok q ∧ q.Client = testParcel.Client ∧ q.Status = testParcel.Status ∧
      q.Address = testParcel.Address ∧ q.CreatedAt = testParcel.CreatedAt ∧ q.Number = 1 :=
  ⟨rfl, add_get_round_trip store0 store1 testParcel 1 rfl⟩

/-- Claim C2 (not found after delete).  For every store and every parcel `p` whose status
is `"registered"`, if `Add p` returns `id` then `Delete id` reports success and `Get id` on
the store it leaves returns the no-rows error. -/
theorem delete_registered_then_not_found (s s1 : ParcelStore) (p : Parcel) (id : Int)
    (hst : p.Status = "registered") (hadd : s.Add p = .ok (id, s1)) :
    ∃ s2, s1.Delete id = .ok s2 ∧ s2.Get id = .error .ErrNoRows := by
  refine ⟨_, ParcelStore.Delete_eq s1 id, ?_⟩
  obtain ⟨hid, rfl⟩ := (ParcelStore.Add_ok_iff s s1 p id).mp hadd
  have hfresh := (newRowid_gt s.db id hid).1
  rw [ParcelStore.Get_error_iff]
  intro r hr
  obtain ⟨hmem, hg⟩ := List.mem_filter.mp hr
  rcases List.mem_append.mp hmem with hold | hnew
  · have := hfresh r hold
    omega
  · rw [List.mem_singleton.mp hnew] at hg
    simp [hst] at hg

/-- Witness for C2: the registered test parcel is added to the empty table, deleted, and
no longer found. -/
theorem delete_registered_then_not_found_witness :
    testParcel.Status = "registered" ∧ store0.Add testParcel = .ok (1, store1) ∧
    ∃ s2, store1.Delete 1 = .ok s2 ∧ s2.Get 1 = .error .ErrNoRows :=
  ⟨rfl, rfl, delete_registered_then_not_found store0 store1 testParcel 1 rfl rfl⟩

/-- Claim C3 (guarded delete).  For every store and every number `n` such that every row
numbered `n` has a status other than `"registered"` (which covers the case that no row is
numbered `n`), `Delete n` reports success and hands back the store unchanged, so `Get n`
returns what it returned before the call. -/
theorem delete_guarded (s : ParcelStore) (n : Int)
    (hguard : ∀ r ∈ s.db.parcel, r.Number = n → r.Status ≠ "registered") :
    ∃ s1, s.Delete n = .ok s1 ∧ s1 = s ∧ s1.Get n = s.Get n :=
  ⟨s, ParcelStore.Delete_of_guard s n hguard, rfl, rfl⟩

/-- Witness for C3: parcel 1 has been delivered; deleting it changes nothing. -/
theorem delete_guarded_witness :
    (∀ r ∈ store1Delivered.db.parcel, r.Number = 1 → r.Status ≠ "registered") ∧
    ∃ s1, store1Delivered.Delete 1 = .ok s1 ∧ s1 = store1Delivered ∧
      s1.Get 1 = store1Delivered.Get 1 :=
  ⟨by decide, delete_guarded store1Delivered 1 (by decide)⟩

/-- Claim C4 (guarded address update).  For every store, number `n` and address `a` such
that every row numbered `n` has a status other than `"registered"` (which covers the case
that no row is numbered `n`), `SetAddress n a` reports success and hands back the store
unchanged, so `Get n` returns what it returned before, address included. -/
theorem setAddress_guarded (s : ParcelStore) (n : Int) (a : String)
    (hguard : ∀ r ∈ s.db.parcel, r.Number = n → r.Status ≠ "registered") :
    ∃ s1, s.SetAddress n a = .ok s1 ∧ s1 = s ∧ s1.Get n = s.Get n :=
  ⟨s, ParcelStore.SetAddress_of_guard s n a hguard, rfl, rfl⟩

/-- Witness for C4: parcel 1 has been delivered; changing its address changes nothing. -/
theorem setAddress_guarded_witness :
    (∀ r ∈ store1Delivered.db.parcel, r.Number = 1 → r.Status ≠ "registered") ∧
    ∃ s1, store1Delivered.SetAddress 1 "new test address" = .ok s1 ∧ s1 = store1Delivered ∧
      s1.Get 1 = store1Delivered.Get 1 :=
  ⟨by decide, setAddress_guarded store1Delivered 1 "new test address" (by decide)⟩

/-- Claim C9 (silent no-op of `SetStatus`).  For every store, every number `n` that no row
carries and every string `st`, `SetStatus n st` reports success and hands back the store
unchanged; in particular no row numbered `n` exists afterwards. -/
theorem setStatus_missing_noop (s : ParcelStore) (n : Int) (st : String)
    (hmiss : ∀ r ∈ s.db.parcel, r.Number ≠ n) :
    ∃ s1, s.SetStatus n st = .ok s1 ∧ s1 = s ∧ s1.Get n = .error .ErrNoRows := by
  have hsame : s.db.parcel.map (fun r =>
      if r.Number == n then { r with Status := st } else r) = s.db.parcel := by
    conv_rhs => rw [← List.map_id s.db.parcel]
    apply List.map_congr_left
    intro r hr
    simp [hmiss r hr]
  refine ⟨s, ?_, rfl, (ParcelStore.Get_error_iff s n).mpr hmiss⟩
  rw [ParcelStore.SetStatus_eq, hsame]

/-- Witness for C9: the store holds parcel 1 only; setting the status of parcel 5 changes
nothing. -/
theorem setStatus_missing_noop_witness :
    (∀ r ∈ store1.db.parcel, r.Number ≠ 5) ∧
    ∃ s1, store1.SetStatus 5 "delivered" = .ok s1 ∧ s1 = store1 ∧
      s1.Get 5 = .error .ErrNoRows :=
  ⟨by decide, setStatus_missing_noop store1 5 "delivered" (by decide)⟩

/-- Claim C5 (address update in the registered state).  For every store, number `n` and
address `a`, if the row that `Get n` returns has status `"registered"`, then
`SetAddress n a` reports success and afterwards `Get n` returns that row with address `a`
and with number, client, status and creation time unchanged; every other row is unchanged:
`Get m` is the same for every `m ≠ n`, the rows with another number are the same, and the
table has as many rows as before and the same key counter. -/
theorem setAddress_registered (s : ParcelStore) (n : Int) (a : String) (r : Parcel)
    (hget : s.Get n = .ok r) (hst : r.Status = "registered") :
    ∃ s1 q, s.SetAddress n a = .ok s1 ∧ s1.Get n = .ok q ∧
      q.Address = a ∧ q.Number = r.Number ∧ q.Client = r.Client ∧ q.Status = r.Status ∧
      q.CreatedAt = r.CreatedAt ∧
      (∀ m, m ≠ n → s1.Get m = s.Get m) ∧
      s1.db.parcel.filter (fun x => x.Number != n) = s.db.parcel.filter (fun x => x.Number != n) ∧
      s1.db.parcel.length = s.db.parcel.length ∧ s1.db.seq = s.db.seq := by
  have hfind := (ParcelStore.Get_ok_iff s n r).mp hget
  have hrn : r.Number = n := by simpa using List.find?_some hfind
  refine ⟨_, { r with Address := a }, ParcelStore.SetAddress_eq s n a, ?_, rfl, rfl, rfl, rfl,
    rfl, ?_, ?_, ?_, rfl⟩
  · rw [ParcelStore.Get_ok_iff]
    simp only
    rw [find_update s.db.parcel (fun r => r.Number == n && r.Status == "registered")
      (fun r => { r with Address := a }) (fun _ => rfl), hfind]
    simp [hrn, hst]
  · intro m hm
    rw [ParcelStore.Get_eq_find, ParcelStore.Get_eq_find]
    simp only
    rw [find_update s.db.parcel (fun r => r.Number == n && r.Status == "registered")
      (fun r => { r with Address := a }) (fun _ => rfl)]
    cases hf : s.db.parcel.find? (fun r => r.Number == m) with
    | none => rfl
    | some x =>
      have hxm : x.Number = m := by simpa using List.find?_some hf
      have hxn : ¬ x.Number = n := fun e => hm (hxm.symm.trans e)
      simp [hxn]
  · simp only
    exact filter_update_others s.db.parcel (fun r => r.Number == n && r.Status == "registered")
      (fun r => { r with Address := a }) n (fun _ => rfl) (fun x hx => by
      simp only [Bool.and_eq_true, beq_iff_eq] at hx
      exact hx.1)
  · simp

/-- Witness for C5: the registered parcel 1 gets a new address (`TestSetAddress`). -/
theorem setAddress_registered_witness :
    store1.Get 1 = .ok { testParcel with Number := 1 } ∧
    ({ testParcel with Number := 1 } : Parcel).Status = "registered" ∧
    ∃ s1 q, store1.SetAddress 1 "new test address" = .ok s1 ∧ s1.Get 1 = .ok q ∧
      q.Address = "new test address" ∧ q.Number = 1 ∧ q.Client = 1000 ∧
      q.Status = "registered" ∧ q.CreatedAt = "2024-05-01T10:00:00Z" ∧
      (∀ m, m ≠ 1 → s1.Get m = store1.Get m) ∧
      s1.db.parcel.filter (fun x => x.Number != 1) =
        store1.db.parcel.filter (fun x => x.Number != 1) ∧
      s1.db.parcel.length = store1.db.parcel.length ∧ s1.db.seq = store1.db.seq :=
  ⟨rfl, rfl, setAddress_registered store1 1 "new test address" { testParcel with Number := 1 }
    rfl rfl⟩

/-- Claim C6 (status overwrite is unconditional).  For every store, every number `n` that
has a row (whatever its status) and every string `st`, `SetStatus n st` reports success and
afterwards `Get n` returns that row with status `st` and with number, client, address and
creation time unchanged; every other row is unchanged: `Get m` is the same for every
`m ≠ n`, the rows with another number are the same, and the table has as many rows as
before and the same key counter. -/
theorem setStatus_unconditional (s : ParcelStore) (n : Int) (st : String) (r : Parcel)
    (hget : s.Get n = .ok r) :
    ∃ s1 q, s.SetStatus n st = .ok s1 ∧ s1.Get n = .ok q ∧
      q.Status = st ∧ q.Number = r.Number ∧ q.Client = r.Client ∧ q.Address = r.Address ∧
      q.CreatedAt = r.CreatedAt ∧
      (∀ m, m ≠ n → s1.Get m = s.Get m) ∧
      s1.db.parcel.filter (fun x => x.Number != n) = s.db.parcel.filter (fun x => x.Number != n) ∧
      s1.db.parcel.length = s.db.parcel.length ∧ s1.db.seq = s.db.seq := by
  have hfind := (ParcelStore.Get_ok_iff s n r).mp hget
  have hrn : r.Number = n := by simpa using List.find?_some hfind
  refine ⟨_, { r with Status := st }, ParcelStore.SetStatus_eq s n st, ?_, rfl, rfl, rfl, rfl,
    rfl, ?_, ?_, ?_, rfl⟩
  · rw [ParcelStore.Get_ok_iff]
    simp only
    rw [find_update s.db.parcel (fun r => r.Number == n)
      (fun r => { r with Status := st }) (fun _ => rfl), hfind]
    simp [hrn]
  · intro m hm
    rw [ParcelStore.Get_eq_find, ParcelStore.Get_eq_find]
    simp only
    rw [find_update s.db.parcel (fun r => r.Number == n)
      (fun r => { r with Status := st }) (fun _ => rfl)]
    cases hf : s.db.parcel.find? (fun r => r.Number == m) with
    | none => rfl
    | some x =>
      have hxm : x.Number = m := by simpa using List.find?_some hf
      have hxn : ¬ x.Number = n := fun e => hm (hxm.symm.trans e)
      simp [hxn]
  · simp only
    exact filter_update_others s.db.parcel (fun r => r.Number == n)
      (fun r => { r with Status := st }) n (fun _ => rfl) (fun x hx => by simpa using hx)
  · simp

/-- Witness for C6: the delivered parcel 1 is set back to `"registered"`. -/
theorem setStatus_unconditional_witness :
    store1Delivered.Get 1 = .ok { testParcel with Number := 1, Status := "delivered" } ∧
    ∃ s1 q, store1Delivered.SetStatus 1 "registered" = .ok s1 ∧ s1.Get 1 = .ok q ∧
      q.Status = "registered" ∧ q.Number = 1 ∧ q.Client = 1000 ∧ q.Address = "test" ∧
      q.CreatedAt = "2024-05-01T10:00:00Z" ∧
      (∀ m, m ≠ 1 → s1.Get m = store1Delivered.Get m) ∧
      s1.db.parcel.filter (fun x => x.Number != 1) =
        store1Delivered.db.parcel.filter (fun x => x.Number != 1) ∧
      s1.db.parcel.length = store1Delivered.db.parcel.length ∧
      s1.db.seq = store1Delivered.db.seq :=
  ⟨rfl, setStatus_unconditional store1Delivered 1 "registered"
    { testParcel with Number := 1, Status := "delivered" } rfl⟩

/-- Claim C10 (fresh positive identifier).  Every store reachable from the empty table by
the repository's operations has no two rows with the same number; and for every parcel
`p`, a successful `Add p` on such a store returns a positive integer that differs from the
number of every row already in the store, is the same whatever number `p` carries, and
leaves the existing rows unchanged: the table is the old table followed by the new row,
and `Get` returns for every old row what it returned before. -/
theorem add_fresh_positive_identifier (s : ParcelStore) (hreach : Reachable s) :
    UniqueKeys s ∧
    ∀ (p : Parcel) (id : Int) (s1 : ParcelStore), s.Add p = .ok (id, s1) →
      0 < id ∧
      (∀ r ∈ s.db.parcel, r.Number ≠ id) ∧
      (∀ k : Int, s.Add { p with Number := k } = .ok (id, s1)) ∧
      s1.db.parcel = s.db.parcel ++ [{ p with Number := id }] ∧
      (∀ r ∈ s.db.parcel, r ∈ s1.db.parcel ∧ s1.Get r.Number = s.Get r.Number) ∧
      UniqueKeys s1 ∧ Reachable s1 := by
  refine ⟨hreach.uniqueKeys, fun p id s1 hadd => ?_⟩
  obtain ⟨hid, hs1⟩ := (ParcelStore.Add_ok_iff s s1 p id).mp hadd
  have hfresh := (newRowid_gt s.db id hid).1
  refine ⟨newRowid_pos s.db id hreach.seq_nonneg hid, ?_, fun k => hadd, ?_, ?_,
    (hreach.add hadd).uniqueKeys, hreach.add hadd⟩
  · intro r hr
    have := hfresh r hr
    omega
  · rw [hs1]
  · intro r hr
    refine ⟨by rw [hs1]; exact List.mem_append_left _ hr, ?_⟩
    rw [ParcelStore.Get_Add s s1 p id hadd]
    have := hfresh r hr
    have hne : ¬ r.Number = id := by omega
    simp [hne]

/-- Witness for C10: the store holding the test parcel is reachable from the empty
table. -/
theorem add_fresh_positive_identifier_witness :
    Reachable store1 ∧ UniqueKeys store1 ∧
    ∀ (p : Parcel) (id : Int) (s1 : ParcelStore), store1.Add p = .ok (id, s1) →
      0 < id ∧
      (∀ r ∈ store1.db.parcel, r.Number ≠ id) ∧
      (∀ k : Int, store1.Add { p with Number := k } = .ok (id, s1)) ∧
      s1.db.parcel = store1.db.parcel ++ [{ p with Number := id }] ∧
      (∀ r ∈ store1.db.parcel, r ∈ s1.db.parcel ∧ s1.Get r.Number = store1.Get r.Number) ∧
      UniqueKeys s1 ∧ Reachable s1 :=
  ⟨Reachable.add Reachable.empty (rfl : store0.Add testParcel = .ok (1, store1)),
    add_fresh_positive_identifier store1
      (Reachable.add Reachable.empty (rfl : store0.Add testParcel = .ok (1, store1)))⟩

/-- Claim C7 (client scan).  For every store `s` and client `c`, `GetByClient c` succeeds;
its result holds exactly the rows of the table whose client is `c`, each as often as the
table holds it, which is once under the primary-key constraint, and is the empty list,
not an error, when no row matches.  When further parcels `ps` are then added one by one
(identifiers `ids`, final store `s1`), `GetByClient c` on `s1` returns the earlier result
followed by exactly the added parcels whose client is `c`, each carrying its identifier;
so if `c` was not present in `s`, the result has as many parcels as `ps` has with client
`c`, and each returned parcel is what `Get` returns for its number and agrees with the
parcel added under that identifier. -/
theorem getByClient_scan (s s1 : ParcelStore) (c : Int) (ps : List Parcel) (ids : List Int)
    (hadd : addAll s ps = .ok (ids, s1)) :
    ∃ res0 res1, s.GetByClient c = .ok res0 ∧ s1.GetByClient c = .ok res1 ∧
      (∀ r, r ∈ res0 ↔ r ∈ s.db.parcel ∧ r.Client = c) ∧
      (∀ r, r.Client = c → res0.count r = s.db.parcel.count r) ∧
      (UniqueKeys s → ∀ r ∈ s.db.parcel, r.Client = c → res0.count r = 1) ∧
      ((∀ r ∈ s.db.parcel, r.Client ≠ c) → res0 = []) ∧
      ids.length = ps.length ∧ ids.Nodup ∧
      res1 = res0 ++
        ((ids.zip ps).filter (fun ip => ip.2.Client == c)).map
          (fun ip => { ip.2 with Number := ip.1 }) ∧
      ((∀ r ∈ s.db.parcel, r.Client ≠ c) →
        res1.length = (ps.filter (fun p => p.Client == c)).length ∧
        ∀ q ∈ res1, q.Client = c ∧ s1.Get q.Number = .ok q ∧
          ∃ p, (q.Number, p) ∈ ids.zip ps ∧ p.Client = q.Client ∧ p.Status = q.Status ∧
            p.Address = q.Address ∧ p.CreatedAt = q.CreatedAt) := by
  obtain ⟨hlen, hrows, hpw, hlt⟩ := addAll_spec ps s s1 ids hadd
  have hnodup : ids.Nodup := hpw.imp (fun h => ne_of_lt h)
  have hres1 : s1.db.parcel.filter (fun r => r.Client == c) =
      s.db.parcel.filter (fun r => r.Client == c) ++
        ((ids.zip ps).filter (fun ip => ip.2.Client == c)).map
          (fun ip => { ip.2 with Number := ip.1 }) := by
    rw [hrows, List.filter_append, List.filter_map]
    rfl
  have hempty : (∀ r ∈ s.db.parcel, r.Client ≠ c) →
      s.db.parcel.filter (fun r => r.Client == c) = [] := by
    intro hnone
    rw [List.filter_eq_nil_iff]
    intro r hr
    simpa using hnone r hr
  refine ⟨_, _, ParcelStore.GetByClient_eq s c, ParcelStore.GetByClient_eq s1 c, ?_, ?_, ?_,
    hempty, hlen, hnodup, hres1, ?_⟩
  · intro r
    simp [List.mem_filter]
  · intro r hr
    exact List.count_filter (by simpa using hr)
  · intro hu r hr hrc
    rw [List.count_filter (by simpa using hrc)]
    exact List.count_eq_one_of_mem (List.Nodup.of_map _ hu) hr
  · intro hnone
    rw [hres1, hempty hnone, List.nil_append]
    refine ⟨by rw [List.length_map, zip_filter_snd_length c ps ids hlen], ?_⟩
    intro q hq
    obtain ⟨ip, hip, rfl⟩ := List.mem_map.mp hq
    obtain ⟨hzip, hclient⟩ := List.mem_filter.mp hip
    have hclient1 : ip.2.Client = c := by simpa using hclient
    obtain ⟨i, p⟩ := ip
    have hnew : ({ p with Number := i } : Parcel) ∈
        (ids.zip ps).map (fun ip => ({ ip.2 with Number := ip.1 } : Parcel)) :=
      List.mem_map.mpr ⟨(i, p), hzip, rfl⟩
    have hnums : ((ids.zip ps).map (fun ip => ({ ip.2 with Number := ip.1 } : Parcel))).map
        (fun r => r.Number) = ids := by
      rw [List.map_map]
      have hfst : ((fun r : Parcel => r.Number) ∘ fun ip : Int × Parcel =>
          ({ ip.2 with Number := ip.1 } : Parcel)) = Prod.fst := rfl
      rw [hfst, List.map_fst_zip]
      omega
    refine ⟨hclient1, ?_, p, hzip, rfl, rfl, rfl, rfl⟩
    rw [ParcelStore.Get_ok_iff]
    apply find_of_unique
    · rw [hrows]
      exact List.mem_append_right _ hnew
    · intro x hx hxn
      rw [hrows] at hx
      rcases List.mem_append.mp hx with hold | hx1
      · have := hlt x hold i (List.of_mem_zip hzip).1
        simp only at hxn
        omega
      · exact List.inj_on_of_nodup_map (by rw [hnums]; exact hnodup) hx1 hnew hxn

/-- Witness for C7: two parcels of client 1000 and one of client 7 are added to the empty
table (`TestGetByClient`). -/
theorem getByClient_scan_witness :
    addAll store0 [testParcel, otherParcel, testParcel] = .ok ([1, 2, 3], store3) ∧
    ∃ res0 res1, store0.GetByClient 1000 = .ok res0 ∧ store3.GetByClient 1000 = .ok res1 ∧
      (∀ r, r ∈ res0 ↔ r ∈ store0.db.parcel ∧ r.Client = 1000) ∧
      (∀ r, r.Client = 1000 → res0.count r = store0.db.parcel.count r) ∧
      (UniqueKeys store0 → ∀ r ∈ store0.db.parcel, r.Client = 1000 → res0.count r = 1) ∧
      ((∀ r ∈ store0.db.parcel, r.Client ≠ 1000) → res0 = []) ∧
      ([1, 2, 3] : List Int).length = [testParcel, otherParcel, testParcel].length ∧
      ([1, 2, 3] : List Int).Nodup ∧
      res1 = res0 ++
        ((([1, 2, 3] : List Int).zip [testParcel, otherParcel, testParcel]).filter
          (fun ip => ip.2.Client == 1000)).map (fun ip => { ip.2 with Number := ip.1 }) ∧
      ((∀ r ∈ store0.db.parcel, r.Client ≠ 1000) →
        res1.length =
          ([testParcel, otherParcel, testParcel].filter (fun p => p.Client == 1000)).length ∧
        ∀ q ∈ res1, q.Client = 1000 ∧ store3.Get q.Number = .ok q ∧
          ∃ p, (q.Number, p) ∈ ([1, 2, 3] : List Int).zip [testParcel, otherParcel, testParcel] ∧
            p.Client = q.Client ∧ p.Status = q.Status ∧
            p.Address = q.Address ∧ p.CreatedAt = q.CreatedAt) :=
  ⟨rfl, getByClient_scan store0 store3 1000 [testParcel, otherParcel, testParcel] [1, 2, 3] rfl⟩

end Sprint8
